import Mathlib

/-!
Verification of the libninja extraction pipeline.

A shallow embedding, in Lean 4, of the OpenAPI-to-IR extraction pipeline of
`src/core/src/extractor.rs`, together with theorems settling the behavioural
claims about it.  Rust strings are modelled at character granularity
(`String.data`); the inputs of interest are ASCII, where Rust byte indices
coincide with character indices.  Fallible Rust code (`Result`) is modelled
with `Except`, and a Rust panic is modelled as the `none` case of an
enclosing `Option`.
-/

namespace Libninja

/-! ## String primitives

Models of the Rust `str` operations used by the extractor, written over
`String.data` so that all of them evaluate by `decide`/`rfl`. -/

/-- Build a string back from its characters. -/
def ofChars (l : List Char) : String := String.mk l

/-- Model of Rust `str::starts_with` (at character granularity). -/
def strStarts (s p : String) : Bool := p.data.isPrefixOf s.data

/-- Model of Rust `str::ends_with` (at character granularity). -/
def strEnds (s p : String) : Bool := p.data.isSuffixOf s.data

/-- Model of Rust `str::to_lowercase` (ASCII fragment). -/
def strLower (s : String) : String := ofChars (s.data.map Char.toLower)

/-- Model of Rust `str::to_uppercase` (ASCII fragment). -/
def strUpper (s : String) : String := ofChars (s.data.map Char.toUpper)

/-- Accumulator loop for `strSplit`. -/
def splitCharAux (c : Char) : List Char → List Char → List String
  | [], acc => [ofChars acc.reverse]
  | x :: xs, acc =>
    if x == c then ofChars acc.reverse :: splitCharAux c xs []
    else splitCharAux c xs (x :: acc)

/-- Model of Rust `str::split(c)`: splits at every occurrence of `c`,
keeping empty pieces (so `"/a".split('/') = ["", "a"]`). -/
def strSplit (s : String) (c : Char) : List String := splitCharAux c s.data []

/-- Lexicographic `≤` on character lists (Rust `str::cmp` is byte
lexicographic; on ASCII the two coincide). -/
def charsLe : List Char → List Char → Bool
  | [], _ => true
  | _ :: _, [] => false
  | a :: as, b :: bs =>
    if a == b then charsLe as bs else decide (a.toNat < b.toNat)

/-- Lexicographic `≤` on strings, the comparator of `sort_by` on names. -/
def strLe (s t : String) : Bool := charsLe s.data t.data

/-- Model of Rust `str::contains(sub)` (substring containment). -/
def charsContains : List Char → List Char → Bool
  | hay, need =>
    if need.isPrefixOf hay then true
    else match hay with
      | [] => false
      | _ :: rest => charsContains rest need

/-- Substring containment on strings. -/
def strContains (hay need : String) : Bool := charsContains hay.data need.data

/-- Insert into a sorted list, before the first element not `le`-below the
inserted one. -/
def insertLe (le : α → α → Bool) (x : α) : List α → List α
  | [] => [x]
  | y :: ys => if le x y then x :: y :: ys else y :: insertLe le x ys

/-- Stable insertion sort.  Rust's `sort_by` is a stable sort; any two
stable sorts agree on their output, so this models the *result* of
`Vec::sort_by` with comparator `le`. -/
def sortByLe (le : α → α → Bool) : List α → List α
  | [] => []
  | x :: xs => insertLe le x (sortByLe le xs)

/-! ## The IR data model (`hir.rs`)

Modelled from the spec: `hir.rs` is not under `src/`; §3 of the spec
describes the type algebra `Ty`, `Record`, `Field`, `Operation`,
`Parameter`, the authorization types and `MirSpec`. -/

namespace hir

/-- Modelled from the spec §3: the closed type algebra.  `model` is a
by-name reference to a record in the schema table. -/
inductive Ty where
  | unit
  | any
  | str
  | int
  | float
  | bool
  | bytes
  | dateTime
  | array (item : Ty)
  | map (value : Ty)
  | model (name : String)
deriving DecidableEq, Repr

/-- Modelled from the spec: `Ty::inner_model` returns the record name a
type refers to, looking through `array`/`map` wrappers (§4.5: reachability
is computed from the names referred to by parameter, return and field
types). -/
def Ty.inner_model : Ty → Option String
  | .model n => some n
  | .array t => t.inner_model
  | .map t => t.inner_model
  | _ => none

/-- Modelled from the spec §3: a record field. -/
structure Field where
  name : String
  ty : Ty
  optional : Bool
  exampleValue : Option String
  doc : Option String
deriving DecidableEq, Repr

/-- Modelled from the spec §3: a named data shape in the schema table.
A `typeAlias` wraps its target type as a single synthetic field carrying
the optionality flag, and stores the alias's own name. -/
inductive Record where
  | struct (fields : List Field)
  | enum (variants : List Field)
  | typeAlias (name : String) (field : Field)
deriving DecidableEq, Repr

/-- Modelled from the spec: `Record::fields` — the fields of a struct, the
variants of an enum, the single synthetic field of a type alias. -/
def Record.fields : Record → List Field
  | .struct fs => fs
  | .enum vs => vs
  | .typeAlias _ f => [f]

/-- Modelled from the spec: `Record::fields_mut` composed with a rewrite,
as a pure map over the same fields that `Record.fields` returns. -/
def Record.mapFields (g : Field → Field) : Record → Record
  | .struct fs => .struct (fs.map g)
  | .enum vs => .enum (vs.map g)
  | .typeAlias n f => .typeAlias n (g f)

/-- Modelled from the spec §4.7: a record is optional when it is a type
alias whose synthetic field is optional ("every TypeAlias record that is
itself optional"). -/
def Record.optional : Record → Bool
  | .typeAlias _ f => f.optional
  | _ => false

/-- Where a parameter is transmitted (spec §3). -/
inductive Location where
  | path
  | query
  | header
  | cookie
  | body
deriving DecidableEq, Repr

/-- Modelled from the spec §3: an operation parameter. -/
structure Parameter where
  doc : Option String
  name : String
  optional : Bool
  location : Location
  ty : Ty
  exampleValue : Option String
deriving DecidableEq, Repr

/-- Modelled from the spec §3: an extracted operation. -/
structure Operation where
  name : String
  doc : Option String
  parameters : List Parameter
  ret : Ty
  path : String
  method : String
deriving DecidableEq, Repr

/-- Normalized credential location (spec §3). -/
inductive AuthLocation where
  | basic
  | bearer
  | token
  | header (key : String)
  | query (key : String)
  | cookie (key : String)
deriving DecidableEq, Repr

/-- Modelled from the spec §3. -/
structure AuthorizationParameter where
  name : String
  env_var : String
  location : AuthLocation
deriving DecidableEq, Repr

/-- Modelled from the spec §3. -/
structure AuthorizationStrategy where
  name : String
  fields : List AuthorizationParameter
deriving DecidableEq, Repr

/-- Modelled from the spec §3: the pipeline's output.  The schema table is
an ordered mapping from name to record (insertion order preserved),
modelled as an association list. -/
structure MirSpec where
  operations : List Operation
  schemas : List (String × Record)
  servers : List (String × String)
  security : List AuthorizationStrategy
  api_docs_url : Option String
deriving DecidableEq, Repr

end hir

/-! ## Naming heuristic (`make_name_from_method_and_url`, extractor.rs 211-232) -/

/-- Join with a separator, Rust `Vec::join` semantics (`[] → ""`). -/
def joinSep (sep : String) : List String → String
  | [] => ""
  | [x] => x
  | x :: xs => x ++ sep ++ joinSep sep xs

/-- Model of the Rust slice `&s[n..]`: `none` when `n` is past the end of
the string, where Rust panics with an index-out-of-range error. -/
def sliceFrom (s : String) (n : Nat) : Option String :=
  if n ≤ s.data.length then some (ofChars (s.data.drop n)) else none

/-- Model of the Rust slice `&s[1..s.len() - 1]` applied to a segment that
starts with a brace: `none` when the segment is a lone `"{"`, where the
range `1..0` makes Rust panic. -/
def stripBraces (s : String) : Option String :=
  if 2 ≤ s.data.length then some (ofChars (s.data.drop 1).dropLast) else none

/-- Drop the first `n` characters (total version, for spec-side text). -/
def dropChars (s : String) (n : Nat) : String := ofChars (s.data.drop n)

/-- The non-parameter segments of a path: `url.split('/')` filtered to the
pieces not starting with `'{'` (extractor.rs 212-215). -/
def nonParamSegs (url : String) : List String :=
  (strSplit url '/').filter (fun s => !strStarts s "\x7b")

/-- The parameter segments of a path: the pieces starting with `'{'`
(extractor.rs 216-219). -/
def paramSegs (url : String) : List String :=
  (strSplit url '/').filter (fun s => strStarts s "\x7b")

/-- Embedding of `make_name_from_method_and_url` (extractor.rs 211-232).
`none` models a panic: the slice `&param[name.len() + 1..]` is past the
end of `param` (or the degenerate `&s[1..s.len()-1]` on a lone brace). -/
def makeNameFromMethodAndUrl (method url : String) : Option String :=
  let names := nonParamSegs url
  match (paramSegs url).getLast? with
  | none => some (method ++ joinSep "_" names)
  | some s =>
    match stripBraces s with
    | none => none
    | some p0 =>
      let param? : Option String :=
        match names.getLast? with
        | none => some p0
        | some n =>
          if strStarts p0 n then sliceFrom p0 (n.data.length + 1) else some p0
      param?.map (fun p => method ++ joinSep "_" names ++ "_by_" ++ p)

/-- The naming heuristic as the claim words it: the final non-parameter
segment's text is removed from `param` only when `param` starts with that
text followed by a separator (`'_'`), the separator being removed with it
(the claim's own literal example fixes this reading). -/
def makeNameClaimed (method url : String) : String :=
  let names := nonParamSegs url
  match (paramSegs url).getLast? with
  | none => method ++ joinSep "_" names
  | some s =>
    let p0 := ofChars ((s.data.drop 1).dropLast)
    let p : String :=
      match names.getLast? with
      | none => p0
      | some n =>
        if strStarts p0 (n ++ "_") then dropChars p0 (n.data.length + 1) else p0
    method ++ joinSep "_" names ++ "_by_" ++ p

/-- The naming heuristic as amended: the final non-parameter segment's
text, plus the single character after it, is removed from `param` whenever
`param` strictly extends that text as a prefix — regardless of whether the
following character is a separator. -/
def makeNameAmended (method url : String) : String :=
  let names := nonParamSegs url
  match (paramSegs url).getLast? with
  | none => method ++ joinSep "_" names
  | some s =>
    let p0 := ofChars ((s.data.drop 1).dropLast)
    let p : String :=
      match names.getLast? with
      | none => p0
      | some n =>
        if strStarts p0 n && decide (n.data.length < p0.data.length) then
          dropChars p0 (n.data.length + 1)
        else p0
    method ++ joinSep "_" names ++ "_by_" ++ p

/-! ## Server extraction (`extract_servers`, extractor.rs 262-285) -/

/-- A declared server: URL and optional description (spec §6 input
contract). -/
structure Server where
  url : String
  description : Option String
deriving DecidableEq, Repr

/-- The fixed keyword list of extractor.rs 270-275, in priority order. -/
def serverKeywords : List String := ["beta", "production", "development", "sandbox"]

/-- The first keyword contained case-insensitively in a server's
description, if any (extractor.rs 269-279). -/
def serverKeyword (description : Option String) : Option String :=
  serverKeywords.find? (fun k =>
    match description with
    | some d => strContains (strLower d) k
    | none => false)

/-- Insert into a `BTreeMap` modelled as a key-sorted association list:
replaces an existing binding of the key, otherwise inserts in order. -/
def insertBT : List (String × String) → String → String → List (String × String)
  | [], k, v => [(k, v)]
  | (k', v') :: rest, k, v =>
    if k = k' then (k, v) :: rest
    else if strLe k k' then (k, v) :: (k', v') :: rest
    else (k', v') :: insertBT rest k v

/-- The `'outer` loop of `extract_servers` (extractor.rs 269-283): each
server is registered under its first matching keyword; a server with no
matching keyword makes the whole function return a fresh empty map. -/
def serversGo : List Server → List (String × String) → List (String × String)
  | [], acc => acc
  | s :: rest, acc =>
    match serverKeyword s.description with
    | some k => serversGo rest (insertBT acc k s.url)
    | none => []

/-- Embedding of `extract_servers` (extractor.rs 262-285).  The source
returns `Result` but never an error; the embedding returns the map. -/
def extract_servers (servers : List Server) : List (String × String) :=
  match servers with
  | [srv] => insertBT [] "default" srv.url
  | _ => serversGo servers []

/-- Spec-side description of `extract_servers`, as the claim words it: exactly one server registers
under `"default"`; otherwise every server registers under the first
keyword contained case-insensitively in its description, and if any
server's description matches no keyword the entire result is the empty
map. -/
def extractServersClaimed (servers : List Server) : List (String × String) :=
  if servers.length = 1 then
    [("default", (servers.head?.map Server.url).getD "")]
  else if servers.all (fun s => (serverKeyword s.description).isSome) then
    servers.foldl (fun acc s => insertBT acc ((serverKeyword s.description).getD "") s.url) []
  else []

/-! ## Case conversion (model of the external `convert_case` crate)

`convert_case` is an external dependency, modelled here at its interface:
words are split on `'_'`, `'-'`, `' '` and at lowercase-to-uppercase
boundaries, then recased and joined with `'_'`. -/

/-- Word-boundary delimiters. -/
def isDelim (c : Char) : Bool := c == '_' || c == '-' || c == ' '

/-- Split into words; `cur` holds the current word reversed. -/
def caseWordsGo : List Char → List Char → List (List Char)
  | [], cur => if cur.isEmpty then [] else [cur.reverse]
  | c :: rest, cur =>
    if isDelim c then
      if cur.isEmpty then caseWordsGo rest [] else cur.reverse :: caseWordsGo rest []
    else if c.isUpper && (match cur with | p :: _ => p.isLower | [] => false) then
      cur.reverse :: caseWordsGo rest [c]
    else
      caseWordsGo rest (c :: cur)

/-- The words of an identifier. -/
def caseWords (s : String) : List (List Char) := caseWordsGo s.data []

/-- Model of `to_case(Case::ScreamingSnake)`. -/
def toScreamingSnake (s : String) : String :=
  joinSep "_" ((caseWords s).map (fun w => ofChars (w.map Char.toUpper)))

/-- Model of `to_case(Case::Snake)`. -/
def toSnakeCase (s : String) : String :=
  joinSep "_" ((caseWords s).map (fun w => ofChars (w.map Char.toLower)))

/-! ## Security extraction (extractor.rs 354-444) -/

/-- Model of `openapiv3::ReferenceOr`: either an item or a reference.  The model
carries the referenced component key directly (the Rust value carries a
`#/components/...` path whose final segment is that key). -/
inductive ReferenceOr (α : Type) where
  | reference (name : String)
  | item (x : α)
deriving DecidableEq, Repr

/-- Model of `openapiv3::APIKeyLocation`. -/
inductive APIKeyLocation where
  | header
  | query
  | cookie
deriving DecidableEq, Repr

/-- Model of `openapiv3::SecurityScheme`, at the granularity the extractor reads
it: API key (location and key name), HTTP (scheme string), and the two
kinds the extractor does not support. -/
inductive SecurityScheme where
  | apiKey (location : APIKeyLocation) (name : String)
  | http (scheme : String)
  | oauth2
  | openIDConnect
deriving DecidableEq, Repr

/-- How a run of the extractor can end: a Rust `Err` (recoverable,
catchable by a caller that matches on the `Result`) or a panic
(uncatchable, propagates past every `match`). -/
inductive Failure where
  | recoverable
  | panicked
deriving DecidableEq, Repr

/-- True exactly on `ok` (model of Rust `Result::is_ok`). -/
def isOkE : Except ε α → Bool
  | .ok _ => true
  | .error _ => false

/-- Model of `Iterator::collect::<Result<Vec<_>, _>>`: map each element,
stopping at the first error. -/
def mapME (f : α → Except ε β) : List α → Except ε (List β)
  | [] => .ok []
  | x :: xs =>
    match f x with
    | .error e => .error e
    | .ok y =>
      match mapME f xs with
      | .error e => .error e
      | .ok ys => .ok (y :: ys)

/-- A fallible left fold, stopping at the first error. -/
def foldME (f : β → α → Except ε β) : List α → β → Except ε β
  | [], b => .ok b
  | x :: xs, b =>
    match f b x with
    | .error e => .error e
    | .ok b' => foldME f xs b'

/-- Outcome of classifying one security scheme (the `match schema` of
extractor.rs 359-402): a location, the recoverable `Err` of the `_` arm,
or the `unimplemented!()` panic for an unrecognized HTTP scheme string. -/
inductive SchemeClass where
  | ok (loc : hir.AuthLocation)
  | unsupported
  | panicked
deriving DecidableEq, Repr

/-- Embedding of the scheme classification (extractor.rs 359-402). -/
def classifyScheme : SecurityScheme → SchemeClass
  | .apiKey .header n =>
    .ok (if ["bearer_auth", "bearer"].contains (toSnakeCase n) then .bearer else .header n)
  | .apiKey .query n => .ok (.query n)
  | .apiKey .cookie n => .ok (.cookie n)
  | .http "basic" => .ok .basic
  | .http "bearer" => .ok .bearer
  | .http "token" => .ok .token
  | .http _ => .panicked
  | .oauth2 => .unsupported
  | .openIDConnect => .unsupported

/-- The environment-variable derivation of extractor.rs 406-417: the
scheme key screaming-snake-cased, prefixed with the screaming-snake-cased
service name unless the key already begins with the service name
case-insensitively. -/
def envVarFor (serviceName schemeKey : String) : String :=
  if strStarts (strLower schemeKey) (strLower serviceName) then
    toScreamingSnake schemeKey
  else
    toScreamingSnake serviceName ++ "_" ++ toScreamingSnake schemeKey

/-- The `for (name, _scopes) in requirement` loop of
`extract_security_fields` (extractor.rs 357-420).  `schemes` is the
document's `security_schemes` table; a missing scheme or a
reference-valued entry makes the source's `.unwrap()` calls panic. -/
def secFieldsGo (serviceName : String) (schemes : List (String × ReferenceOr SecurityScheme)) :
    List (String × List String) → Except Failure (List hir.AuthorizationParameter)
  | [] => .ok []
  | (n, _scopes) :: rest =>
    match List.lookup n schemes with
    | none => .error .panicked
    | some (.reference _) => .error .panicked
    | some (.item sch) =>
      match classifyScheme sch with
      | .panicked => .error .panicked
      | .unsupported => .error .recoverable
      | .ok loc =>
        (secFieldsGo serviceName schemes rest).map
          (fun fs => { name := n, env_var := envVarFor serviceName n, location := loc } :: fs)

/-- Embedding of `extract_security_fields` (extractor.rs 354-422).
`schemes?` is `spec.components.map (·.security_schemes)`; the source's
`spec.components.as_ref().unwrap()` panics when it is absent. -/
def extract_security_fields (serviceName : String)
    (schemes? : Option (List (String × ReferenceOr SecurityScheme)))
    (requirement : List (String × List String)) :
    Except Failure (List hir.AuthorizationParameter) :=
  match schemes? with
  | none => .error .panicked
  | some schemes => secFieldsGo serviceName schemes requirement

/-- The `for requirement in security` loop of
`extract_security_strategies` (extractor.rs 430-442): an empty requirement
makes `requirement.iter().next().unwrap()` panic; a recoverable failure of
`extract_security_fields` skips the requirement; a panic propagates. -/
def stratsGo (serviceName : String)
    (schemes? : Option (List (String × ReferenceOr SecurityScheme))) :
    List (List (String × List String)) → Except Failure (List hir.AuthorizationStrategy)
  | [] => .ok []
  | req :: rest =>
    match req.head? with
    | none => .error .panicked
    | some (n, _scopes) =>
      match extract_security_fields serviceName schemes? req with
      | .error .panicked => .error .panicked
      | .error .recoverable => stratsGo serviceName schemes? rest
      | .ok fields =>
        (stratsGo serviceName schemes? rest).map (fun ss => { name := n, fields := fields } :: ss)

/-- Embedding of `extract_security_strategies` (extractor.rs 424-444):
no top-level `security` yields no strategies. -/
def extract_security_strategies (serviceName : String)
    (schemes? : Option (List (String × ReferenceOr SecurityScheme)))
    (security? : Option (List (List (String × List String)))) :
    Except Failure (List hir.AuthorizationStrategy) :=
  match security? with
  | none => .ok []
  | some reqs => stratsGo serviceName schemes? reqs

/-! ## The OpenAPI document model (`openapiv3`, at the interface the
extractor reads)

Schemas are modelled at the granularity the extractor distinguishes:
array (with optional items), object (properties and required-list),
enumerated value sets, primitive scalars, and a catch-all remainder. -/

mutual

/-- An OpenAPI schema: `schema_data` flattened to the fields the extractor
reads (`nullable`, `example`), plus the schema kind. -/
inductive Schema where
  | mk (nullable : Bool) (exampleValue : Option String) (kind : SchemaKind)

/-- The schema kinds the extractor distinguishes. -/
inductive SchemaKind where
  | array (items : Option (ReferenceOr Schema))
  | object (properties : List (String × ReferenceOr Schema)) (required : List String)
  | enumVals (values : List String)
  | prim (scalar : hir.Ty)
  | other

end

/-- The `schema_data.nullable` flag. -/
def Schema.nullable : Schema → Bool
  | .mk n _ _ => n

/-- The `schema_data.example` value. -/
def Schema.exampleValue : Schema → Option String
  | .mk _ e _ => e

/-- The `schema_kind`. -/
def Schema.kind : Schema → SchemaKind
  | .mk _ _ k => k

/-- Model of `Schema::required(name)`: whether `name` is in the object schema's
required-list (`false` for non-object kinds). -/
def Schema.isRequired (s : Schema) (n : String) : Bool :=
  match s.kind with
  | .object _ req => req.contains n
  | _ => false

/-- Embedding of `is_optional` (extractor.rs 41-43). -/
def is_optional (name : String) (param : Schema) (parent : Schema) : Bool :=
  param.nullable || !parent.isRequired name

/-- Model of the `properties_iter` helper of the `openapiv3` crate:
the properties of an object schema, an error for any other kind. -/
def properties_iter (s : Schema) : Except Unit (List (String × ReferenceOr Schema)) :=
  match s.kind with
  | .object props _ => .ok props
  | _ => .error ()

/-- Model of the `openapiv3` media type: the optional schema under a content key. -/
structure MediaType where
  schema : Option (ReferenceOr Schema)

/-- Model of `openapiv3::RequestBody`: content keyed by media type. -/
structure RequestBody where
  content : List (String × MediaType)

/-- Model of `openapiv3::Response`: content keyed by media type. -/
structure Response where
  content : List (String × MediaType)

/-- Where an `openapiv3::Parameter` lives. -/
inductive ParamLocation where
  | query
  | header
  | path
  | cookie
deriving DecidableEq, Repr

/-- Model of `openapiv3::Parameter`, flattened to the `parameter_data` fields the
extractor reads. -/
structure OAParameter where
  location : ParamLocation
  name : String
  required : Bool
  schema? : Option (ReferenceOr Schema)

/-- The `From<&Parameter> for Location` conversion used at
extractor.rs 74. -/
def locationOf : ParamLocation → hir.Location
  | .query => .query
  | .header => .header
  | .path => .path
  | .cookie => .cookie

/-- Model of `openapiv3::Operation`, at the fields the extractor reads. -/
structure OAOperation where
  operation_id : Option String
  summary : Option String
  description : Option String
  external_docs_url : Option String
  parameters : List (ReferenceOr OAParameter)
  request_body : Option (ReferenceOr RequestBody)
  responses : List (Nat × ReferenceOr Response)

/-- Model of `openapiv3::PathItem`: path-level parameters and the per-method
operations, in the order the crate's iterator yields them. -/
structure PathItem where
  parameters : List (ReferenceOr OAParameter)
  operations : List (String × OAOperation)

/-- Model of `openapiv3::Components`, at the tables the extractor resolves
against. -/
structure Components where
  schemas : List (String × Schema)
  parameters : List (String × OAParameter)
  requestBodies : List (String × RequestBody)
  responses : List (String × Response)
  securitySchemes : List (String × ReferenceOr SecurityScheme)

/-- Model of `openapiv3::OpenAPI`, at the fields the extractor reads. -/
structure OpenAPI where
  paths : List (String × PathItem)
  servers : List Server
  security : Option (List (List (String × List String)))
  components : Option Components
  external_docs_url : Option String

/-- Model of `spec.operations()`: every `(path, method, operation, path_item)`
exposed by the document, in document order. -/
def OpenAPI.operationsList (spec : OpenAPI) : List (String × String × OAOperation × PathItem) :=
  spec.paths.flatMap (fun pi => pi.2.operations.map (fun mo => (pi.1, mo.1, mo.2, pi.2)))

/-- The `security_schemes` table, when components are present. -/
def OpenAPI.securitySchemes? (spec : OpenAPI) : Option (List (String × ReferenceOr SecurityScheme)) :=
  spec.components.map Components.securitySchemes

/-- Resolve a parameter reference (`ReferenceOr::resolve`, `Result`-valued
in the crate: a dangling reference is a recoverable error). -/
def resolveParam (spec : OpenAPI) : ReferenceOr OAParameter → Except Failure OAParameter
  | .item p => .ok p
  | .reference n =>
    match spec.components with
    | none => .error .recoverable
    | some c =>
      match List.lookup n c.parameters with
      | none => .error .recoverable
      | some p => .ok p

/-- Resolve a request-body reference (`Result`-valued in the crate). -/
def resolveRequestBody (spec : OpenAPI) : ReferenceOr RequestBody → Except Failure RequestBody
  | .item b => .ok b
  | .reference n =>
    match spec.components with
    | none => .error .recoverable
    | some c =>
      match List.lookup n c.requestBodies with
      | none => .error .recoverable
      | some b => .ok b

/-- Resolve a response reference (`Result`-valued in the crate). -/
def resolveResponse (spec : OpenAPI) : ReferenceOr Response → Except Failure Response
  | .item r => .ok r
  | .reference n =>
    match spec.components with
    | none => .error .recoverable
    | some c =>
      match List.lookup n c.responses with
      | none => .error .recoverable
      | some r => .ok r

/-- Resolve a schema reference (`ReferenceOr<Schema>::resolve` returns a
plain `&Schema` in the crate and panics on a dangling reference: `none`
models that panic). -/
def resolveSchema (spec : OpenAPI) : ReferenceOr Schema → Option Schema
  | .item s => some s
  | .reference n => spec.components.bind (fun c => List.lookup n c.schemas)

mutual

/-- Modelled from the spec §4.1: `schema_ref_to_ty` (resolution.rs is not
under src/).  A `$ref` to a named component resolves to `Model(name)`
without recursing into the referenced body. -/
def schema_ref_to_ty (spec : OpenAPI) : ReferenceOr Schema → hir.Ty
  | .reference n => .model n
  | .item s => concrete_schema_to_ty spec s

/-- Modelled from the spec §4.1: `concrete_schema_to_ty` (resolution.rs is
not under src/).  An inline array resolves to `Array` of its item type
(`Any` when `items` is absent); primitive scalars resolve to their scalar
type; inline objects, enumerations and other shapes resolve to the
structural fallback. -/
def concrete_schema_to_ty (spec : OpenAPI) : Schema → hir.Ty
  | .mk _ _ (.array none) => .array .any
  | .mk _ _ (.array (some r)) => .array (schema_ref_to_ty spec r)
  | .mk _ _ (.prim t) => t
  | .mk _ _ (.object _ _) => .any
  | .mk _ _ (.enumVals _) => .any
  | .mk _ _ .other => .any

end

/-! ## Operation extraction (extractor.rs 45-259) -/

/-- Embedding of `extract_request_schema` (extractor.rs 45-59): no request
body, an unresolvable body reference, or absent `application/json` content
are recoverable errors; a JSON content entry without a schema makes the
source's `.unwrap()` panic, and a dangling schema reference makes the
crate's `resolve` panic. -/
def extract_request_schema (spec : OpenAPI) (op : OAOperation) : Except Failure Schema :=
  match op.request_body with
  | none => .error .recoverable
  | some bodyRef =>
    match resolveRequestBody spec bodyRef with
    | .error _ => .error .recoverable
    | .ok body =>
      match List.lookup "application/json" body.content with
      | none => .error .recoverable
      | some media =>
        match media.schema with
        | none => .error .panicked
        | some sref =>
          match resolveSchema spec sref with
          | none => .error .panicked
          | some s => .ok s

/-- Embedding of `extract_param` (extractor.rs 61-78): an unresolvable
parameter reference or a parameter without a schema is a recoverable
error; the example lookup resolves the schema reference with the crate's
panicking `resolve`. -/
def extract_param (spec : OpenAPI) (p : ReferenceOr OAParameter) : Except Failure hir.Parameter :=
  match resolveParam spec p with
  | .error e => .error e
  | .ok param =>
    match param.schema? with
    | none => .error .recoverable
    | some sref =>
      match resolveSchema spec sref with
      | none => .error .panicked
      | some schema =>
        .ok { doc := none, name := param.name, optional := !param.required,
              location := locationOf param.location, ty := schema_ref_to_ty spec sref,
              exampleValue := schema.exampleValue }

/-- The parameter merge of extractor.rs 92-96: append each path-item
parameter whose name is not already present. -/
def mergeParams (inputs args : List hir.Parameter) : List hir.Parameter :=
  args.foldl (fun acc p => if acc.any (fun q => q.name == p.name) then acc else acc ++ [p]) inputs

/-- The operation-level and path-item-level parameters of an operation,
merged (extractor.rs 85-96), before any body handling. -/
def nonBodyInputs (spec : OpenAPI) (op : OAOperation) (item : PathItem) :
    Except Failure (List hir.Parameter) := do
  let inputs ← mapME (extract_param spec) op.parameters
  let args ← mapME (extract_param spec) item.parameters
  pure (mergeParams inputs args)

/-- The synthetic `body` parameter pushed for array and catch-all body
schemas (extractor.rs 110-117 and 138-145). -/
def bodyParam (ty : hir.Ty) (exampleValue : Option String) : hir.Parameter :=
  { doc := none, name := "body", optional := false, location := .body, ty := ty,
    exampleValue := exampleValue }

/-- The flattening of one object-body property into a parameter
(extractor.rs 119-131); resolving the property schema for the optionality
check uses the crate's panicking `resolve`. -/
def bodyPropParam (spec : OpenAPI) (schema : Schema) (pn : String) (pref : ReferenceOr Schema) :
    Except Failure hir.Parameter :=
  match resolveSchema spec pref with
  | none => .error .panicked
  | some pSchema =>
    .ok { doc := none, name := pn, optional := is_optional pn pSchema schema,
          location := .body, ty := schema_ref_to_ty spec pref,
          exampleValue := schema.exampleValue }

/-- The `for param in body_args` loop of extractor.rs 132-136: flatten
each property, appending it unless its name is already in the (growing)
parameter list. -/
def appendBodyProps (spec : OpenAPI) (schema : Schema)
    (props : List (String × ReferenceOr Schema)) (inputs : List hir.Parameter) :
    Except Failure (List hir.Parameter) :=
  foldME
    (fun acc pp => do
      let p ← bodyPropParam spec schema pp.1 pp.2
      if acc.any (fun q => q.name == p.name) then pure acc else pure (acc ++ [p]))
    props inputs

/-- Embedding of `extract_inputs` (extractor.rs 80-148).  A failure of
`extract_request_schema` is swallowed (extractor.rs 99: `Err(_) => return
Ok(inputs)`) — but a panic is not catchable and still propagates. -/
def extract_inputs (spec : OpenAPI) (op : OAOperation) (item : PathItem) :
    Except Failure (List hir.Parameter) := do
  let inputs ← nonBodyInputs spec op item
  match extract_request_schema spec op with
  | .error .panicked => .error .panicked
  | .error .recoverable => .ok inputs
  | .ok schema =>
    match schema.kind with
    | .array items =>
      let ty := match items with
        | some itemsRef => schema_ref_to_ty spec itemsRef
        | none => hir.Ty.any
      .ok (inputs ++ [bodyParam (.array ty) schema.exampleValue])
    | _ =>
      match properties_iter schema with
      | .ok props => appendBodyProps spec schema props inputs
      | .error _ => .ok (inputs ++ [bodyParam .any schema.exampleValue])

/-- The status-code lookup `responses.get(&StatusCode::Code(c))`. -/
def lookupCode (op : OAOperation) (c : Nat) : Option (ReferenceOr Response) :=
  List.lookup c op.responses

/-- Embedding of `extract_response_success` (extractor.rs 150-171): the
chained `or_else` lookup of 200, 201, 202, 204, 302; `ok none` when no
such response or no JSON schema; the `.resolve(spec).unwrap()` panics on
an unresolvable response reference. -/
def extract_response_success (spec : OpenAPI) (op : OAOperation) :
    Except Failure (Option (ReferenceOr Schema)) :=
  match lookupCode op 200 <|> lookupCode op 201 <|> lookupCode op 202 <|>
        lookupCode op 204 <|> lookupCode op 302 with
  | none => .ok none
  | some rr =>
    match resolveResponse spec rr with
    | .error _ => .error .panicked
    | .ok resp => .ok ((List.lookup "application/json" resp.content).bind MediaType.schema)

/-- The return type computed at extractor.rs 245-248: `Unit` when there is
no success response, otherwise the resolved schema type. -/
def operationRet (spec : OpenAPI) (op : OAOperation) : Except Failure hir.Ty :=
  (extract_response_success spec op).map
    (fun r? => match r? with
      | none => hir.Ty.unit
      | some r => schema_ref_to_ty spec r)

/-- Model of `hir::DocFormat`. -/
inductive DocFormat where
  | markdown
  | rst
deriving DecidableEq, Repr

/-- Embedding of `extract_operation_doc` (extractor.rs 173-201). -/
def extract_operation_doc (op : OAOperation) (format : DocFormat) : Option String :=
  let p1 : List String :=
    match op.summary with
    | some s => if s == "" then [] else [s]
    | none => []
  let p2 : List String :=
    match op.description with
    | some d =>
      if d == "" then p1
      else if !p1.isEmpty && p1.head? == some d then p1
      else p1 ++ [d]
    | none => p1
  let p3 : List String :=
    match op.external_docs_url with
    | some u =>
      p2 ++ [match format with
             | .markdown => "See endpoint docs at <" ++ u ++ ">."
             | .rst => "See endpoint docs at `" ++ u ++ " <" ++ u ++ ">`_."]
    | none => p2
  if p3.isEmpty then none else some (joinSep "\n\n" p3)

/-- The extraction of one `(path, method, operation, item)` entry
(the closure of extractor.rs 236-257). -/
def extractOneOperation (spec : OpenAPI) (entry : String × String × OAOperation × PathItem) :
    Except Failure hir.Operation := do
  let path := entry.1
  let method := entry.2.1
  let op := entry.2.2.1
  let item := entry.2.2.2
  let name ← match op.operation_id with
    | some n => Except.ok n
    | none =>
      match makeNameFromMethodAndUrl method path with
      | some n => Except.ok n
      | none => Except.error Failure.panicked
  let doc := extract_operation_doc op .markdown
  let parameters ← extract_inputs spec op item
  let parameters := sortByLe (fun a b => strLe a.name b.name) parameters
  let ret ← operationRet spec op
  pure { name := name, doc := doc, parameters := parameters, ret := ret,
         path := path, method := method }

/-- Embedding of `extract_api_operations` (extractor.rs 234-259): the
first failing operation aborts the whole collection. -/
def extract_api_operations (spec : OpenAPI) : Except Failure (List hir.Operation) :=
  mapME (extractOneOperation spec) spec.operationsList

/-! ## Record extraction and the whole pipeline -/

/-- The named component schemas of the document (empty when there are no
components). -/
def componentSchemas (spec : OpenAPI) : List (String × Schema) :=
  match spec.components with
  | none => []
  | some c => c.schemas

/-- Modelled from the spec §4.2: `extract_records` (record.rs is not
under src/).  Each named component schema is classified: an object with
properties becomes a Struct (one field per property, optionality per the
nullable/required rule), a fixed value set becomes an Enum, and other
shapes become a TypeAlias of their resolved type. -/
def extract_records (spec : OpenAPI) : Except Failure (List (String × hir.Record)) :=
  mapME
    (fun ns : String × Schema => do
      let n := ns.1
      let s := ns.2
      match s.kind with
      | .object props _ => do
        let fields ← mapME (fun pp => do
          match resolveSchema spec pp.2 with
          | none => Except.error Failure.panicked
          | some pSchema =>
            pure { name := pp.1, ty := schema_ref_to_ty spec pp.2,
                   optional := is_optional pp.1 pSchema s,
                   exampleValue := pSchema.exampleValue,
                   doc := none : hir.Field }) props
        pure (n, hir.Record.struct fields)
      | .enumVals vs =>
        pure (n, hir.Record.enum (vs.map (fun v =>
          { name := v, ty := .str, optional := false, exampleValue := none, doc := none })))
      | _ =>
        pure (n, hir.Record.typeAlias n
          { name := n, ty := concrete_schema_to_ty spec s,
            optional := s.nullable, exampleValue := s.exampleValue, doc := none }))
    (componentSchemas spec)

/-! ## Spec sanitization (extractor.rs 291-347) -/

/-- The `used` set of `remove_unused` (extractor.rs 292-309): every record
name referred to by a schema field, an operation return type or an
operation parameter type. -/
def usedNames (m : hir.MirSpec) : List String :=
  m.schemas.flatMap (fun nr => nr.2.fields.filterMap (fun f => f.ty.inner_model))
    ++ m.operations.flatMap (fun op =>
        op.ret.inner_model.toList ++ op.parameters.filterMap (fun p => p.ty.inner_model))

/-- Embedding of `remove_unused` (extractor.rs 291-311): retain the used
records and every record whose name ends in `"Webhook"`. -/
def remove_unused (m : hir.MirSpec) : hir.MirSpec :=
  { m with schemas :=
      m.schemas.filter (fun nr => (usedNames m).contains nr.1 || strEnds nr.1 "Webhook") }

/-- The `optional_short_circuit` map of extractor.rs 315-326: every
optional TypeAlias record whose target is a model reference, as
`(alias, target)`.  The source collects into a `HashMap`, where a later
duplicate key overwrites an earlier one; lookups below therefore search
the reversed list. -/
def aliasShortCircuit (m : hir.MirSpec) : List (String × String) :=
  m.schemas.filterMap (fun nr =>
    if nr.2.optional then
      match nr.2 with
      | .typeAlias a f =>
        match f.ty with
        | .model resolved => some (a, resolved)
        | _ => none
      | _ => none
    else none)

/-- The field rewrite of extractor.rs 329-337: a field whose type is a
model reference to a collapsible alias is redirected to the alias's
target and forced optional; any other field is untouched. -/
def collapseField (sc : List (String × String)) (f : hir.Field) : hir.Field :=
  match f.ty with
  | .model n =>
    match List.lookup n sc.reverse with
    | some target => { f with ty := .model target, optional := true }
    | none => f
  | _ => f

/-- The alias-collapsing pass of extractor.rs 313-338, applying
`collapseField` to every field of every record. -/
def collapseAliases (m : hir.MirSpec) : hir.MirSpec :=
  { m with schemas := m.schemas.map (fun nr =>
      (nr.1, nr.2.mapFields (collapseField (aliasShortCircuit m)))) }

/-- Embedding of `sanitize_spec` (extractor.rs 313-347): alias collapsing,
then `remove_unused` twice. -/
def sanitize_spec (m : hir.MirSpec) : hir.MirSpec :=
  remove_unused (remove_unused (collapseAliases m))

/-- Embedding of `extract_spec` (extractor.rs 21-39), over the modelled
`extract_records`; `serviceName` is the `LibraryOptions::service_name`
field, the only option the extractor reads. -/
def extract_spec (spec : OpenAPI) (serviceName : String) : Except Failure hir.MirSpec := do
  let operations ← extract_api_operations spec
  let schemas ← extract_records spec
  let servers := extract_servers spec.servers
  let security ← extract_security_strategies serviceName spec.securitySchemes? spec.security
  let api_docs_url := spec.external_docs_url
  pure (sanitize_spec
    { operations := operations, schemas := schemas, servers := servers,
      security := security, api_docs_url := api_docs_url })

/-! ## Property `NoDanglingRefs` and concrete example documents -/

/-- No dangling model references: every record name used by an operation
or a record field is a key of the schema table. -/
abbrev NoDanglingRefs (m : hir.MirSpec) : Prop :=
  ∀ n ∈ usedNames m, n ∈ m.schemas.map Prod.fst

deriving instance DecidableEq for Except

/-- A MirSpec whose only operation returns a model that has no record:
the input itself has a dangling reference. -/
def danglingRetSpec : hir.MirSpec :=
  { operations := [{ name := "getX", doc := none, parameters := [], ret := .model "X",
                     path := "/x", method := "get" }],
    schemas := [], servers := [], security := [], api_docs_url := none }

/-- A MirSpec with an operation-reachable record and an unreachable
webhook-suffixed record. -/
def webhookSpec : hir.MirSpec :=
  { operations := [{ name := "getA", doc := none, parameters := [], ret := .model "A",
                     path := "/a", method := "get" }],
    schemas := [("A", .struct []), ("EventWebhook", .struct [])],
    servers := [], security := [], api_docs_url := none }

/-- A three-link reference chain `A → B → C` with no operation references:
the first pruning pass removes `A`, the second removes `B`, and a third
pass would remove `C`. -/
def chainSpec : hir.MirSpec :=
  { operations := [],
    schemas :=
      [("A", .struct [{ name := "b", ty := .model "B", optional := false,
                        exampleValue := none, doc := none }]),
       ("B", .struct [{ name := "c", ty := .model "C", optional := false,
                        exampleValue := none, doc := none }]),
       ("C", .struct [])],
    servers := [], security := [], api_docs_url := none }

/-- An operation with a request body whose only content is
`text/plain` — no JSON content. -/
def opNoJsonBody : OAOperation :=
  { operation_id := some "uploadThing", summary := none, description := none,
    external_docs_url := none, parameters := [],
    request_body := some (.item ⟨[("text/plain", ⟨none⟩)]⟩), responses := [] }

/-- The path item holding `opNoJsonBody`. -/
def itemNoJsonBody : PathItem := ⟨[], [("post", opNoJsonBody)]⟩

/-- A document whose only operation is `opNoJsonBody`. -/
def docNoJsonBody : OpenAPI :=
  { paths := [("/thing", itemNoJsonBody)], servers := [], security := none,
    components := none, external_docs_url := none }

/-- A parameter carrying no schema at all. -/
def noSchemaParam : ReferenceOr OAParameter :=
  .item { location := .query, name := "q", required := true, schema? := none }

/-- An operation with a parameter that has no resolvable schema. -/
def opNoSchemaParam : OAOperation :=
  { operation_id := some "listThings", summary := none, description := none,
    external_docs_url := none, parameters := [noSchemaParam],
    request_body := none, responses := [] }

/-- The path item holding `opNoSchemaParam`. -/
def itemNoSchemaParam : PathItem := ⟨[], [("get", opNoSchemaParam)]⟩

/-- A document whose only operation is `opNoSchemaParam`. -/
def docNoSchemaParam : OpenAPI :=
  { paths := [("/things", itemNoSchemaParam)], servers := [], security := none,
    components := none, external_docs_url := none }

/-- A document with nothing in it, used where only an operation's own
responses matter. -/
def emptyDoc : OpenAPI :=
  { paths := [], servers := [], security := none, components := none,
    external_docs_url := none }

/-- A JSON response whose schema is a reference to `Pet`. -/
def respPet : Response := ⟨[("application/json", ⟨some (.reference "Pet")⟩)]⟩

/-- An operation whose only success response is a 201 with a JSON `Pet`
schema. -/
def opCreated : OAOperation :=
  { operation_id := some "createPet", summary := none, description := none,
    external_docs_url := none, parameters := [], request_body := none,
    responses := [(404, .item ⟨[]⟩), (201, .item respPet)] }

/-- An operation with only a 404 response: no success status code. -/
def opNotFound : OAOperation :=
  { operation_id := some "misses", summary := none, description := none,
    external_docs_url := none, parameters := [], request_body := none,
    responses := [(404, .item ⟨[]⟩)] }

/-- A nullable property schema. -/
def propA : ReferenceOr Schema := .item (Schema.mk true none .other)

/-- A non-nullable property schema. -/
def propId : ReferenceOr Schema := .item (Schema.mk false none .other)

/-- An object body schema with properties `a` (nullable) and `id`,
requiring `a`, carrying an example. -/
def objBodySchema : Schema :=
  .mk false (some "ex") (.object [("a", propA), ("id", propId)] ["a"])

/-- An operation with a path parameter `id` and a JSON object request
body whose properties are `a` and `id`. -/
def opObjectBody : OAOperation :=
  { operation_id := some "createItem", summary := none, description := none,
    external_docs_url := none,
    parameters := [.item { location := .path, name := "id", required := true,
                           schema? := some propId }],
    request_body := some (.item ⟨[("application/json", ⟨some (.item objBodySchema)⟩)]⟩),
    responses := [] }

/-- The path item holding `opObjectBody`. -/
def itemObjectBody : PathItem := ⟨[], [("post", opObjectBody)]⟩

/-- A document whose only operation is `opObjectBody`. -/
def docObjectBody : OpenAPI :=
  { paths := [("/items", itemObjectBody)], servers := [], security := none,
    components := none, external_docs_url := none }

/-- A security-scheme table with an API key scheme and an HTTP basic
scheme. -/
def schemesPlaid : List (String × ReferenceOr SecurityScheme) :=
  [("PlaidKey", .item (.apiKey .header "X-Key")), ("secret", .item (.http "basic"))]

/-- A security-scheme table with an OAuth2 scheme and an API key
scheme. -/
def schemesMixed : List (String × ReferenceOr SecurityScheme) :=
  [("oauth", .item .oauth2), ("key", .item (.apiKey .header "X-Key"))]

/-! ## Helper lemmas -/

theorem isPrefixOf_self (l : List Char) : l.isPrefixOf l = true := by
  induction l <;> simp [List.isPrefixOf, *]

theorem mem_of_lookup_eq_some {α β : Type _} [BEq α] [LawfulBEq α]
    {l : List (α × β)} {k : α} {v : β} (h : List.lookup k l = some v) : (k, v) ∈ l := by
  induction l with
  | nil => simp [List.lookup] at h
  | cons x xs ih =>
    obtain ⟨a, b⟩ := x
    rw [List.lookup_cons] at h
    by_cases hk : (k == a) = true
    · simp only [hk] at h
      have ha : k = a := by simpa using hk
      have hb : b = v := by simpa using h
      subst ha; subst hb; exact List.Mem.head _
    · simp only [Bool.not_eq_true] at hk
      simp only [hk] at h
      exact List.Mem.tail _ (ih h)

/-! ## C4: the naming heuristic -/

/-- C4 counterexample: the code strips the final non-parameter segment's
text plus one character whenever the parameter merely starts with that
text, a separator or not; at `"/account/{accountxid}"` the code yields
`"get_account_by_id"` where the claim's description yields
`"get_account_by_accountxid"`. -/
theorem make_name_separator_counterexample :
    makeNameFromMethodAndUrl "get" "/account/{accountxid}" = some "get_account_by_id" ∧
    makeNameClaimed "get" "/account/{accountxid}" = "get_account_by_accountxid" ∧
    makeNameFromMethodAndUrl "get" "/account/{accountxid}" ≠
      some (makeNameClaimed "get" "/account/{accountxid}") := by
  refine ⟨by decide, by decide, by decide⟩

/-- C4 (amended): whenever `make_name_from_method_and_url` returns a
name, that name concatenates the method, the non-parameter segments
joined with `'_'`, and a `_by_<param>` suffix for the last parameter
segment, where the final non-parameter segment's text plus the single
following character is removed whenever `<param>` strictly extends that
text as a prefix (no separator check); and on the claim's literal example
the result is `"get_user_account_by_id"`. -/
theorem make_name_amended_characterization :
    (∀ m p r, makeNameFromMethodAndUrl m p = some r → r = makeNameAmended m p) ∧
    makeNameFromMethodAndUrl "get" "/user/{user_id}/account/{account_id}" =
      some "get_user_account_by_id" := by
  constructor
  · intro m p r h
    cases hL : (paramSegs p).getLast? with
    | none =>
      simp only [makeNameFromMethodAndUrl, hL, Option.some.injEq] at h
      simp only [makeNameAmended, hL]
      exact h.symm
    | some s =>
      cases hB : stripBraces s with
      | none => simp [makeNameFromMethodAndUrl, hL, hB] at h
      | some p0 =>
        have hp0 : p0 = ofChars ((s.data.drop 1).dropLast) := by
          unfold stripBraces at hB
          split at hB
          · simpa using hB.symm
          · simp at hB
        cases hN : (nonParamSegs p).getLast? with
        | none =>
          simp only [makeNameFromMethodAndUrl, hL, hB, hN, Option.map_some',
            Option.some.injEq] at h
          simp only [makeNameAmended, hL, hN]
          rw [← h, hp0]
        | some nm =>
          by_cases hS : strStarts p0 nm = true
          · simp only [makeNameFromMethodAndUrl, hL, hB, hN] at h
            rw [if_pos hS] at h
            unfold sliceFrom at h
            split at h
            · next hle =>
              simp only [Option.map_some', Option.some.injEq] at h
              have hlt : nm.data.length < p0.data.length := Nat.lt_of_succ_le hle
              simp only [makeNameAmended, hL, hN]
              rw [← hp0, if_pos (by simp only [hS, Bool.true_and, decide_eq_true_eq]; exact hlt), ← h]
              simp [dropChars]
            · simp at h
          · simp only [makeNameFromMethodAndUrl, hL, hB, hN] at h
            rw [if_neg hS] at h
            simp only [Option.map_some', Option.some.injEq] at h
            simp only [makeNameAmended, hL, hN]
            rw [← hp0, if_neg (by simp [hS])]
            exact h.symm
  · decide

/-- C4 witness: the amended characterization applied to the claim's
literal example. -/
theorem make_name_amended_witness :
    "get_user_account_by_id" = makeNameAmended "get" "/user/{user_id}/account/{account_id}" :=
  make_name_amended_characterization.1 "get" "/user/{user_id}/account/{account_id}"
    "get_user_account_by_id" (by decide)

/-! ## C10: the equal-name panic -/

/-- C10: when the last path parameter's brace-stripped name is exactly
the final non-parameter segment, `make_name_from_method_and_url` panics —
the slice `&param[name.len() + 1..]` starts past the end of the string —
modelled as the `none` result. -/
theorem make_name_equal_param_panics (m p s nm : String)
    (h1 : (paramSegs p).getLast? = some s)
    (h2 : (nonParamSegs p).getLast? = some nm)
    (h3 : stripBraces s = some nm) :
    makeNameFromMethodAndUrl m p = none := by
  have hpre : strStarts nm nm = true := by
    unfold strStarts; exact isPrefixOf_self nm.data
  simp only [makeNameFromMethodAndUrl, h1, h3, h2]
  rw [if_pos hpre]
  unfold sliceFrom
  rw [if_neg (Nat.not_succ_le_self nm.data.length)]
  rfl

/-- C10 witness: `("get", "/account/{account}")` panics. -/
theorem make_name_panics_witness :
    makeNameFromMethodAndUrl "get" "/account/{account}" = none :=
  make_name_equal_param_panics "get" "/account/{account}" "{account}" "account"
    (by decide) (by decide) (by decide)

/-! ## C7: server extraction -/

theorem serversGo_characterization (ss : List Server) (acc : List (String × String)) :
    serversGo ss acc =
      if ss.all (fun s => (serverKeyword s.description).isSome) then
        ss.foldl (fun a s => insertBT a ((serverKeyword s.description).getD "") s.url) acc
      else [] := by
  induction ss generalizing acc with
  | nil => simp [serversGo]
  | cons s rest ih =>
    cases hk : serverKeyword s.description with
    | none => simp [serversGo, hk]
    | some k => simp [serversGo, hk, ih]

/-- C7: `extract_servers` is exactly the claim's description — one server
registers under `"default"`; otherwise every server registers under the
first keyword of beta, production, development, sandbox contained
case-insensitively in its description, and any keyword-less server makes
the entire result the empty map. -/
theorem extract_servers_matches_claim (ss : List Server) :
    extract_servers ss = extractServersClaimed ss := by
  match ss with
  | [] => rfl
  | [s] => rfl
  | a :: b :: t =>
    have h1 : extract_servers (a :: b :: t) = serversGo (a :: b :: t) [] := rfl
    rw [h1, serversGo_characterization]
    unfold extractServersClaimed
    rw [if_neg (show ¬((a :: b :: t).length = 1) by simp)]

/-! ## C8: environment-variable derivation -/

/-- C8: every authorization parameter produced by a successful
`extract_security_fields` run derives its environment variable from its
scheme key: the key upper-snake-cased when the key already begins
(case-insensitively) with the service name, otherwise the upper-snake
service name, an underscore, and the upper-snake key. -/
theorem env_var_derivation (serviceName : String)
    (schemes : List (String × ReferenceOr SecurityScheme))
    (req : List (String × List String)) (fields : List hir.AuthorizationParameter)
    (h : extract_security_fields serviceName (some schemes) req = .ok fields) :
    ∀ q ∈ fields, q.env_var =
      if strStarts (strLower q.name) (strLower serviceName) then
        toScreamingSnake q.name
      else
        toScreamingSnake serviceName ++ "_" ++ toScreamingSnake q.name := by
  have h' : secFieldsGo serviceName schemes req = .ok fields := h
  clear h
  induction req generalizing fields with
  | nil =>
    unfold secFieldsGo at h'
    cases h'
    intro q hq
    simp at hq
  | cons e rest ih =>
    obtain ⟨n, sc⟩ := e
    unfold secFieldsGo at h'
    cases hlk : List.lookup n schemes with
    | none => simp only [hlk] at h'; cases h'
    | some r =>
      cases r with
      | reference rn => simp only [hlk] at h'; cases h'
      | item sch =>
        cases hcl : classifyScheme sch with
        | panicked => simp only [hlk, hcl] at h'; cases h'
        | unsupported => simp only [hlk, hcl] at h'; cases h'
        | ok loc =>
          simp only [hlk, hcl] at h'
          cases hrest : secFieldsGo serviceName schemes rest with
          | error e2 => simp only [hrest, Except.map] at h'; cases h'
          | ok fs =>
            simp only [hrest, Except.map, Except.ok.injEq] at h'
            intro q hq
            rw [← h'] at hq
            cases hq with
            | head => simp [envVarFor]
            | tail _ hq => exact ih fs hrest q hq

/-- C8 witness: with service name `"Plaid"`, key `"PlaidKey"` keeps its
own prefix (`PLAID_KEY`) and key `"secret"` gains one
(`PLAID_SECRET`). -/
theorem env_var_derivation_witness :
    ({ name := "PlaidKey", env_var := "PLAID_KEY",
       location := .header "X-Key" } : hir.AuthorizationParameter).env_var =
      toScreamingSnake "PlaidKey" ∧
    ({ name := "secret", env_var := "PLAID_SECRET",
       location := .basic } : hir.AuthorizationParameter).env_var =
      toScreamingSnake "Plaid" ++ "_" ++ toScreamingSnake "secret" := by
  have h := env_var_derivation "Plaid" schemesPlaid [("PlaidKey", []), ("secret", [])]
    [{ name := "PlaidKey", env_var := "PLAID_KEY", location := .header "X-Key" },
     { name := "secret", env_var := "PLAID_SECRET", location := .basic }] (by decide)
  exact ⟨by simpa using h _ (List.Mem.head _),
         by simpa using h _ (List.Mem.tail _ (List.Mem.head _))⟩

/-! ## C9: unsupported security schemes are skipped -/

theorem classify_unsupported (sch : SecurityScheme)
    (h1 : ∀ loc k, sch ≠ .apiKey loc k) (h2 : ∀ s, sch ≠ .http s) :
    classifyScheme sch = .unsupported := by
  cases sch with
  | apiKey loc k => exact absurd rfl (h1 loc k)
  | http s => exact absurd rfl (h2 s)
  | oauth2 => rfl
  | openIDConnect => rfl

theorem fields_unsupported_first (serviceName n : String)
    (schemes : List (String × ReferenceOr SecurityScheme))
    (scopes : List String) (rest : List (String × List String)) (sch : SecurityScheme)
    (hlk : List.lookup n schemes = some (.item sch))
    (h1 : ∀ loc k, sch ≠ .apiKey loc k) (h2 : ∀ s, sch ≠ .http s) :
    extract_security_fields serviceName (some schemes) ((n, scopes) :: rest) =
      .error .recoverable := by
  show secFieldsGo serviceName schemes ((n, scopes) :: rest) = .error .recoverable
  unfold secFieldsGo
  simp only [hlk, classify_unsupported sch h1 h2]

/-- C9: a top-level security requirement whose first entry resolves to a
scheme that is neither an API-key scheme nor an HTTP scheme contributes
no authorization strategy, and the strategies of every other requirement
are extracted exactly as if the unsupported requirement were absent. -/
theorem unsupported_scheme_skipped (serviceName n : String)
    (schemes : List (String × ReferenceOr SecurityScheme))
    (pre post : List (List (String × List String)))
    (scopes : List String) (rest : List (String × List String)) (sch : SecurityScheme)
    (hlk : List.lookup n schemes = some (.item sch))
    (h1 : ∀ loc k, sch ≠ .apiKey loc k) (h2 : ∀ s, sch ≠ .http s) :
    stratsGo serviceName (some schemes) (pre ++ ((n, scopes) :: rest) :: post) =
      stratsGo serviceName (some schemes) (pre ++ post) := by
  induction pre with
  | nil =>
    simp only [List.nil_append]
    conv_lhs => unfold stratsGo
    simp only [List.head?_cons,
      fields_unsupported_first serviceName n schemes scopes rest sch hlk h1 h2]
  | cons q pre ih =>
    simp only [List.cons_append]
    unfold stratsGo
    cases q.head? with
    | none => rfl
    | some e =>
      obtain ⟨qn, qscopes⟩ := e
      cases extract_security_fields serviceName (some schemes) q with
      | error f =>
        cases f with
        | panicked => rfl
        | recoverable => exact ih
      | ok fs => rw [ih]

/-- C9 witness: an OAuth2 requirement between no requirement and an
API-key requirement is skipped, leaving exactly the strategies of the
remaining requirement. -/
theorem unsupported_scheme_skipped_witness :
    stratsGo "Svc" (some schemesMixed) [[("oauth", [])], [("key", [])]] =
      stratsGo "Svc" (some schemesMixed) [[("key", [])]] :=
  unsupported_scheme_skipped "Svc" "oauth" schemesMixed [] [[("key", [])]] [] [] .oauth2
    (by decide) (fun loc k h => SecurityScheme.noConfusion h)
    (fun s h => SecurityScheme.noConfusion h)

/-! ## C2: success-response priority -/

theorem exceptBind_ok {ε α β : Type _} (a : α) (f : α → Except ε β) :
    (Except.ok a >>= f) = f a := rfl

/-- C2: the return type checks status codes 200, 201, 202, 204, 302 in
that fixed priority order: when none of the five is present the return
type is `Unit`; when the first present one resolves, its
`application/json` content schema determines the type. -/
theorem response_priority_order (spec : OpenAPI) (op : OAOperation) :
    ((∀ c ∈ [200, 201, 202, 204, 302], lookupCode op c = none) →
        operationRet spec op = .ok .unit) ∧
    (∀ c rr resp,
        List.find? (fun c => (lookupCode op c).isSome) [200, 201, 202, 204, 302] = some c →
        lookupCode op c = some rr → resolveResponse spec rr = .ok resp →
        operationRet spec op =
          .ok (match (List.lookup "application/json" resp.content).bind MediaType.schema with
               | none => .unit
               | some sr => schema_ref_to_ty spec sr)) := by
  constructor
  · intro h
    have h200 := h 200 (by simp)
    have h201 := h 201 (by simp)
    have h202 := h 202 (by simp)
    have h204 := h 204 (by simp)
    have h302 := h 302 (by simp)
    simp only [operationRet, extract_response_success, h200, h201, h202, h204, h302,
      Option.none_orElse]
    rfl
  · intro c rr resp hf hl hr
    cases h200 : lookupCode op 200 with
    | some r200 =>
      rw [List.find?_cons_of_pos _ (by simp [h200])] at hf
      injection hf with hc
      subst hc
      simp only [operationRet, extract_response_success, hl, Option.some_orElse, hr,
        Except.map]
    | none =>
      rw [List.find?_cons_of_neg _ (by simp [h200])] at hf
      cases h201 : lookupCode op 201 with
      | some r201 =>
        rw [List.find?_cons_of_pos _ (by simp [h201])] at hf
        injection hf with hc
        subst hc
        simp only [operationRet, extract_response_success, h200, hl, Option.none_orElse,
          Option.some_orElse, hr, Except.map]
      | none =>
        rw [List.find?_cons_of_neg _ (by simp [h201])] at hf
        cases h202 : lookupCode op 202 with
        | some r202 =>
          rw [List.find?_cons_of_pos _ (by simp [h202])] at hf
          injection hf with hc
          subst hc
          simp only [operationRet, extract_response_success, h200, h201, hl,
            Option.none_orElse, Option.some_orElse, hr, Except.map]
        | none =>
          rw [List.find?_cons_of_neg _ (by simp [h202])] at hf
          cases h204 : lookupCode op 204 with
          | some r204 =>
            rw [List.find?_cons_of_pos _ (by simp [h204])] at hf
            injection hf with hc
            subst hc
            simp only [operationRet, extract_response_success, h200, h201, h202, hl,
              Option.none_orElse, Option.some_orElse, hr, Except.map]
          | none =>
            rw [List.find?_cons_of_neg _ (by simp [h204])] at hf
            cases h302 : lookupCode op 302 with
            | some r302 =>
              rw [List.find?_cons_of_pos _ (by simp [h302])] at hf
              injection hf with hc
              subst hc
              simp only [operationRet, extract_response_success, h200, h201, h202, h204,
                hl, Option.none_orElse, Option.some_orElse, hr, Except.map]
            | none =>
              rw [List.find?_cons_of_neg _ (by simp [h302])] at hf
              simp at hf

/-- C2 witness: a lone 201 JSON response resolves to its schema type, and
an operation with only a 404 response gets `Unit`. -/
theorem response_priority_witness :
    operationRet emptyDoc opCreated = .ok (.model "Pet") ∧
    operationRet emptyDoc opNotFound = .ok .unit := by
  constructor
  · exact (response_priority_order emptyDoc opCreated).2 201 (.item respPet) respPet
      (by decide) (by rfl) (by rfl)
  · apply (response_priority_order emptyDoc opNotFound).1
    intro c hc
    fin_cases hc <;> rfl

/-! ## C3: request-body flattening -/

/-- C3: given the merged non-body parameters, `extract_inputs` appends —
for an array body — one `body` parameter of array type (`Any` item type
when `items` is absent); for an object body, each property as a
`Location=Body` parameter with optionality from the required-list and
nullable flag, skipping names already present; for any other body shape,
one `body` parameter of type `Any`; and nothing when there is no request
body. -/
theorem body_flattening (spec : OpenAPI) (op : OAOperation) (item : PathItem)
    (inputs0 : List hir.Parameter) (h : nonBodyInputs spec op item = .ok inputs0) :
    (op.request_body = none → extract_inputs spec op item = .ok inputs0) ∧
    (∀ sch items, extract_request_schema spec op = .ok sch → sch.kind = .array items →
        extract_inputs spec op item = .ok (inputs0 ++
          [bodyParam (.array (match items with
            | some r => schema_ref_to_ty spec r
            | none => .any)) sch.exampleValue])) ∧
    (∀ sch props required, extract_request_schema spec op = .ok sch →
        sch.kind = .object props required →
        extract_inputs spec op item = appendBodyProps spec sch props inputs0) ∧
    (∀ sch, extract_request_schema spec op = .ok sch →
        (∀ items, sch.kind ≠ .array items) →
        (∀ props required, sch.kind ≠ .object props required) →
        extract_inputs spec op item = .ok (inputs0 ++ [bodyParam .any sch.exampleValue])) := by
  refine ⟨?_, ?_, ?_, ?_⟩
  · intro hb
    have hs : extract_request_schema spec op = .error .recoverable := by
      unfold extract_request_schema; rw [hb]
    simp only [extract_inputs, h, exceptBind_ok, hs]
  · intro sch items hs hk
    simp only [extract_inputs, h, exceptBind_ok, hs, hk]
  · intro sch props required hs hk
    have hpi : properties_iter sch = .ok props := by
      unfold properties_iter; rw [hk]
    simp only [extract_inputs, h, exceptBind_ok, hs, hk, hpi]
  · intro sch hs hna hno
    cases hk : sch.kind with
    | array items => exact absurd hk (hna items)
    | object props required => exact absurd hk (hno props required)
    | enumVals vs =>
      have hpi : properties_iter sch = .error () := by
        unfold properties_iter; rw [hk]
      simp only [extract_inputs, h, exceptBind_ok, hs, hk, hpi]
    | prim t =>
      have hpi : properties_iter sch = .error () := by
        unfold properties_iter; rw [hk]
      simp only [extract_inputs, h, exceptBind_ok, hs, hk, hpi]
    | other =>
      have hpi : properties_iter sch = .error () := by
        unfold properties_iter; rw [hk]
      simp only [extract_inputs, h, exceptBind_ok, hs, hk, hpi]

/-- C3 witness: an object body with properties `a` (nullable, required)
and `id` flattens into one `a` body parameter — optional because of
nullability, carrying the body schema's example — while `id` is skipped
because a path parameter of that name is already present. -/
theorem body_flattening_witness :
    extract_inputs docObjectBody opObjectBody itemObjectBody =
      .ok [{ doc := none, name := "id", optional := false, location := .path,
             ty := .any, exampleValue := none },
           { doc := none, name := "a", optional := true, location := .body,
             ty := .any, exampleValue := some "ex" }] := by
  have h := (body_flattening docObjectBody opObjectBody itemObjectBody
      [{ doc := none, name := "id", optional := false, location := .path,
         ty := .any, exampleValue := none }] (by rfl)).2.2.1
      objBodySchema [("a", propA), ("id", propId)] ["a"] (by rfl) (by rfl)
  rw [h]
  rfl

/-! ## C5: failure propagation -/

theorem exceptBind_error {ε α β : Type _} (e : ε) (f : α → Except ε β) :
    ((Except.error e : Except ε α) >>= f) = Except.error e := rfl

theorem mapME_ok_forall {α β ε : Type _} {f : α → Except ε β} {l : List α} {ys : List β}
    (h : mapME f l = .ok ys) : ∀ x ∈ l, ∃ y, f x = .ok y := by
  induction l generalizing ys with
  | nil => intro x hx; simp at hx
  | cons a as ih =>
    unfold mapME at h
    cases hfa : f a with
    | error e => simp only [hfa] at h; cases h
    | ok y =>
      simp only [hfa] at h
      cases hrest : mapME f as with
      | error e => simp only [hrest] at h; cases h
      | ok ys' =>
        intro x hx
        cases hx with
        | head => exact ⟨y, hfa⟩
        | tail _ hx => exact ih hrest x hx

theorem mapME_not_ok {α β ε : Type _} {f : α → Except ε β} {l : List α} {x : α}
    (hx : x ∈ l) (hfx : isOkE (f x) = false) : isOkE (mapME f l) = false := by
  cases hm : mapME f l with
  | error e => rfl
  | ok ys =>
    rcases mapME_ok_forall hm x hx with ⟨y, hy⟩
    rw [hy] at hfx
    simp [isOkE] at hfx

/-- C5 counterexample: an operation with a request body whose content has
no `application/json` entry does *not* abort extraction — the failure of
`extract_request_schema` is swallowed by `extract_inputs` (extractor.rs
99) and the whole pipeline succeeds. -/
theorem no_json_body_not_fatal :
    (opNoJsonBody.request_body).isSome = true ∧
    extract_request_schema docNoJsonBody opNoJsonBody = .error .recoverable ∧
    isOkE (extract_spec docNoJsonBody "Svc") = true := by
  refine ⟨rfl, rfl, by decide⟩

/-- C5 (amended): a parameter with no resolvable schema aborts the whole
extraction at the first occurrence — its recoverable failure propagates
through `extract_inputs`, `extract_api_operations` and `extract_spec` —
while a request body whose schema cannot be recovered (no body, or no
JSON content) is not fatal: `extract_inputs` swallows it and returns only
the non-body parameters. -/
theorem extraction_failure_propagation :
    (∀ (spec : OpenAPI) (op : OAOperation) (item : PathItem) (p : ReferenceOr OAParameter),
        p ∈ op.parameters → extract_param spec p = .error .recoverable →
        isOkE (extract_inputs spec op item) = false) ∧
    (∀ (spec : OpenAPI) (serviceName path method : String) (op : OAOperation)
        (item : PathItem),
        (path, method, op, item) ∈ spec.operationsList →
        isOkE (extract_inputs spec op item) = false →
        isOkE (extract_spec spec serviceName) = false) ∧
    (∀ (spec : OpenAPI) (op : OAOperation) (item : PathItem),
        extract_request_schema spec op = .error .recoverable →
        extract_inputs spec op item = nonBodyInputs spec op item) := by
  refine ⟨?_, ?_, ?_⟩
  · intro spec op item p hp hep
    have h1 : isOkE (mapME (extract_param spec) op.parameters) = false :=
      mapME_not_ok hp (by rw [hep]; rfl)
    cases hm : mapME (extract_param spec) op.parameters with
    | ok ys => rw [hm] at h1; simp [isOkE] at h1
    | error e =>
      have h2 : nonBodyInputs spec op item = .error e := by
        simp only [nonBodyInputs, hm, exceptBind_error]
      simp only [extract_inputs, h2, exceptBind_error]
      rfl
  · intro spec serviceName path method op item hmem hin
    have hone : isOkE (extractOneOperation spec (path, method, op, item)) = false := by
      cases hini : extract_inputs spec op item with
      | ok ps => rw [hini] at hin; simp [isOkE] at hin
      | error e =>
        cases hop : op.operation_id with
        | some n =>
          simp only [extractOneOperation, hop, exceptBind_ok, hini, exceptBind_error]
          rfl
        | none =>
          cases hmn : makeNameFromMethodAndUrl method path with
          | none => simp only [extractOneOperation, hop, hmn]; rfl
          | some n =>
            simp only [extractOneOperation, hop, hmn, exceptBind_ok, hini, exceptBind_error]
            rfl
    have hops : isOkE (extract_api_operations spec) = false := mapME_not_ok hmem hone
    cases ha : extract_api_operations spec with
    | ok os => rw [ha] at hops; simp [isOkE] at hops
    | error e =>
      unfold extract_spec
      simp only [ha, exceptBind_error]
      rfl
  · intro spec op item hs
    cases hn : nonBodyInputs spec op item with
    | error e => simp only [extract_inputs, hn, exceptBind_error]
    | ok inputs0 => simp only [extract_inputs, hn, exceptBind_ok, hs]

/-- C5 witness: a parameter with no schema makes `extract_inputs` fail
and the failure aborts `extract_spec` for the whole document. -/
theorem extraction_failure_witness :
    isOkE (extract_inputs docNoSchemaParam opNoSchemaParam itemNoSchemaParam) = false ∧
    isOkE (extract_spec docNoSchemaParam "Svc") = false := by
  have h1 := extraction_failure_propagation.1 docNoSchemaParam opNoSchemaParam
    itemNoSchemaParam noSchemaParam (List.Mem.head _) (by rfl)
  exact ⟨h1, extraction_failure_propagation.2.1 docNoSchemaParam "Svc" "/things" "get"
    opNoSchemaParam itemNoSchemaParam (List.Mem.head _) h1⟩

/-! ## C1 and C6: sanitization -/

theorem fields_mapFields (g : hir.Field → hir.Field) (r : hir.Record) :
    (r.mapFields g).fields = r.fields.map g := by
  cases r <;> rfl

theorem contains_of_mem {l : List String} {a : String} (h : a ∈ l) :
    l.contains a = true := by
  simp [List.elem_iff]
  exact h

theorem mem_usedNames_iff (m : hir.MirSpec) (n : String) :
    n ∈ usedNames m ↔
      (∃ nr ∈ m.schemas, ∃ f ∈ nr.2.fields, f.ty.inner_model = some n) ∨
      (∃ op ∈ m.operations, op.ret.inner_model = some n ∨
        ∃ q ∈ op.parameters, q.ty.inner_model = some n) := by
  unfold usedNames
  simp [List.mem_append, List.mem_flatMap, List.mem_filterMap, Option.mem_toList,
    Option.mem_def]

theorem keys_remove_unused {m : hir.MirSpec} {n : String}
    (hu : n ∈ usedNames m) (hk : n ∈ m.schemas.map Prod.fst) :
    n ∈ (remove_unused m).schemas.map Prod.fst := by
  rcases List.mem_map.mp hk with ⟨nr, hmem, hfst⟩
  refine List.mem_map.mpr ⟨nr, List.mem_filter.mpr ⟨hmem, ?_⟩, hfst⟩
  have hc : (usedNames m).contains nr.1 = true := by
    rw [hfst]; exact contains_of_mem hu
  simp only [Bool.or_eq_true]
  exact Or.inl hc

theorem used_remove_subset (m : hir.MirSpec) :
    ∀ n ∈ usedNames (remove_unused m), n ∈ usedNames m := by
  intro n hn
  rw [mem_usedNames_iff] at hn ⊢
  rcases hn with ⟨nr, hmem, f, hf, hi⟩ | hop
  · exact Or.inl ⟨nr, (List.mem_filter.mp hmem).1, f, hf, hi⟩
  · exact Or.inr hop

theorem remove_unused_noDangling {m : hir.MirSpec} (h : NoDanglingRefs m) :
    NoDanglingRefs (remove_unused m) := by
  intro n hn
  have hu : n ∈ usedNames m := used_remove_subset m n hn
  exact keys_remove_unused hu (h n hu)

theorem keys_collapseAliases (m : hir.MirSpec) :
    (collapseAliases m).schemas.map Prod.fst = m.schemas.map Prod.fst := by
  unfold collapseAliases
  simp only [List.map_map]
  exact List.map_congr_left (fun a _ => rfl)

theorem alias_target_used {m : hir.MirSpec} {a n : String}
    (h : (a, n) ∈ aliasShortCircuit m) : n ∈ usedNames m := by
  unfold aliasShortCircuit at h
  rcases List.mem_filterMap.mp h with ⟨nr, hmem, heq⟩
  rw [mem_usedNames_iff]
  left
  obtain ⟨nm, r⟩ := nr
  cases r with
  | struct fs => simp [hir.Record.optional] at heq
  | enum vs => simp [hir.Record.optional] at heq
  | typeAlias a' f =>
    simp only [hir.Record.optional] at heq
    by_cases hopt : f.optional = true
    · rw [if_pos hopt] at heq
      cases hty : f.ty
      iterate 10
        simp only [hty] at heq
        cases heq
      next target =>
        simp only [hty] at heq
        simp only [Option.some.injEq, Prod.mk.injEq] at heq
        refine ⟨(nm, hir.Record.typeAlias a' f), hmem, f, ?_, ?_⟩
        · simp [hir.Record.fields]
        · rw [hty, ← heq.2]
          rfl
    · rw [if_neg hopt] at heq
      cases heq

theorem collapse_used_subset (m : hir.MirSpec) :
    ∀ n ∈ usedNames (collapseAliases m), n ∈ usedNames m := by
  intro n hn
  rw [mem_usedNames_iff] at hn
  rcases hn with ⟨nr', hmem', f', hf', hi'⟩ | hop
  · simp only [collapseAliases] at hmem'
    rcases List.mem_map.mp hmem' with ⟨nr, hmem, rfl⟩
    rw [fields_mapFields] at hf'
    rcases List.mem_map.mp hf' with ⟨f, hf, rfl⟩
    cases hty : f.ty
    case model n₀ =>
      cases hlk : List.lookup n₀ (aliasShortCircuit m).reverse with
      | none =>
        have hcf : collapseField (aliasShortCircuit m) f = f := by
          simp only [collapseField, hty, hlk]
        rw [hcf] at hi'
        rw [mem_usedNames_iff]
        exact Or.inl ⟨nr, hmem, f, hf, hi'⟩
      | some target =>
        have hcf : collapseField (aliasShortCircuit m) f =
            { f with ty := .model target, optional := true } := by
          simp only [collapseField, hty, hlk]
        rw [hcf] at hi'
        simp only [hir.Ty.inner_model, Option.some.injEq] at hi'
        rw [← hi']
        exact alias_target_used (List.mem_reverse.mp (mem_of_lookup_eq_some hlk))
    all_goals (
      have hcf : collapseField (aliasShortCircuit m) f = f := by
        simp only [collapseField, hty]
      rw [hcf] at hi'
      rw [mem_usedNames_iff]
      exact Or.inl ⟨nr, hmem, f, hf, hi'⟩)
  · rw [mem_usedNames_iff]
    exact Or.inr hop

theorem webhook_kept_remove {m : hir.MirSpec} {n : String}
    (hw : strEnds n "Webhook" = true) (hk : n ∈ m.schemas.map Prod.fst) :
    n ∈ (remove_unused m).schemas.map Prod.fst := by
  rcases List.mem_map.mp hk with ⟨nr, hmem, hfst⟩
  refine List.mem_map.mpr ⟨nr, List.mem_filter.mpr ⟨hmem, ?_⟩, hfst⟩
  rw [hfst, hw]
  simp

/-- C1 counterexample: on a MirSpec whose operation already refers to a
record name with no schema-table entry, sanitization leaves the dangling
reference in place — the claim fails without a no-dangling-input
precondition. -/
theorem sanitize_dangling_counterexample :
    "X" ∈ usedNames (sanitize_spec danglingRetSpec) ∧
    "X" ∉ (sanitize_spec danglingRetSpec).schemas.map Prod.fst := by
  decide

/-- C1 (amended): provided the input MirSpec itself has no dangling model
references, sanitization preserves that property — after `sanitize_spec`
every record name occurring in a surviving operation's parameter or
return types or in a surviving record's fields is a key of the schema
table — and every webhook-suffixed record present before pruning survives
pruning regardless of reachability. -/
theorem sanitize_no_dangling (m : hir.MirSpec) (h : NoDanglingRefs m) :
    NoDanglingRefs (sanitize_spec m) ∧
    (∀ n, strEnds n "Webhook" = true → n ∈ m.schemas.map Prod.fst →
        n ∈ (sanitize_spec m).schemas.map Prod.fst) := by
  have h1 : NoDanglingRefs (collapseAliases m) := by
    intro n hn
    rw [keys_collapseAliases]
    exact h n (collapse_used_subset m n hn)
  have h3 := remove_unused_noDangling (remove_unused_noDangling h1)
  refine ⟨h3, ?_⟩
  intro n hw hk
  have hk1 : n ∈ (collapseAliases m).schemas.map Prod.fst := by
    rw [keys_collapseAliases]
    exact hk
  exact webhook_kept_remove hw (webhook_kept_remove hw hk1)

/-- C1 witness: a spec with a used record `A` and an unreachable
`EventWebhook` record satisfies the precondition; sanitization keeps both
properties. -/
theorem sanitize_no_dangling_witness :
    NoDanglingRefs (sanitize_spec webhookSpec) ∧
    "EventWebhook" ∈ (sanitize_spec webhookSpec).schemas.map Prod.fst :=
  ⟨(sanitize_no_dangling webhookSpec (by decide)).1,
   (sanitize_no_dangling webhookSpec (by decide)).2 "EventWebhook" (by decide) (by decide)⟩

/-- C6 counterexample: on the chain `A → B → C` with no operation
references, the two passes of `sanitize_spec` leave `C`, and a third
`remove_unused` pass removes it — the third pass is not a no-op. -/
theorem third_pass_removes_counterexample :
    "C" ∈ (sanitize_spec chainSpec).schemas.map Prod.fst ∧
    "C" ∉ (remove_unused (sanitize_spec chainSpec)).schemas.map Prod.fst ∧
    remove_unused (sanitize_spec chainSpec) ≠ sanitize_spec chainSpec := by
  decide

/-- C6 (amended): a third `remove_unused` pass after `sanitize_spec` can
remove further records (see the counterexample) but never adds or alters
anything: its schema table is a sublist of the sanitized one, and the
operations, servers, security and docs link are untouched. -/
theorem third_pass_only_removes (m : hir.MirSpec) :
    ((remove_unused (sanitize_spec m)).schemas).Sublist ((sanitize_spec m).schemas) ∧
    (remove_unused (sanitize_spec m)).operations = (sanitize_spec m).operations ∧
    (remove_unused (sanitize_spec m)).servers = (sanitize_spec m).servers ∧
    (remove_unused (sanitize_spec m)).security = (sanitize_spec m).security ∧
    (remove_unused (sanitize_spec m)).api_docs_url = (sanitize_spec m).api_docs_url :=
  ⟨List.filter_sublist _, rfl, rfl, rfl, rfl⟩

end Libninja
